import Mathlib

/-!
Shallow embedding of the B2B marketplace scraper pipeline
(`data_processor.py` and `scraper_multi_source.py`) together with proofs
about its normalizers, extractor, aggregator and deduplication passes.

Conventions: pandas `NaN` cells are modelled as `none` of an `Option`
type; Python floats are modelled as exact rationals (`Rat`); Python
strings are Lean strings, manipulated through their character lists.
-/

namespace B2B

/-- Python `pat in s` on character lists: contiguous-substring test. -/
def strHasSub (pat : List Char) : List Char → Bool
  | [] => pat.isEmpty
  | c :: cs => pat.isPrefixOf (c :: cs) || strHasSub pat cs

/-- Python `str.lower()` (ASCII case folding, via `Char.toLower`). -/
def pyLower (cs : List Char) : List Char := cs.map Char.toLower

/-- Case-insensitive containment as the source writes it:
`needle in hay.lower()` with `needle` lowered as well (the needles used
by the source are already lowercase, so lowering them is the identity). -/
def lowerContains (needle hay : String) : Bool :=
  strHasSub (pyLower needle.data) (pyLower hay.data)

/-- Python `str.strip()`: drop leading and trailing whitespace. -/
def pyStrip (cs : List Char) : List Char :=
  ((cs.dropWhile Char.isWhitespace).reverse.dropWhile Char.isWhitespace).reverse

/-- Packaging of `pyStrip` on strings. -/
def pyStripS (s : String) : String := ⟨pyStrip s.data⟩

/-- Numeric value of a digit run (most significant digit first). -/
def digitsToNat (ds : List Char) : Nat :=
  ds.foldl (fun n c => 10 * n + (c.toNat - 48)) 0

/-- First match of the regular expression `\d+\.?\d*` in a character
list, as `clean_price` obtains it via `re.findall(...)[0]`: scan to the
first digit, take the maximal digit run, then an optional decimal point
followed by a further (possibly empty) digit run.  Returns the
integer-part and fractional-part digit runs. -/
def findFirstNumber : List Char → Option (List Char × List Char)
  | [] => none
  | c :: cs =>
    if c.isDigit then
      let intPart := (c :: cs).takeWhile Char.isDigit
      match (c :: cs).dropWhile Char.isDigit with
      | '.' :: rest => some (intPart, rest.takeWhile Char.isDigit)
      | _ => some (intPart, [])
    else findFirstNumber cs

/-- Value of Python `float("<intPart>.<fracPart>")` as a rational. -/
def floatOfParts (intPart fracPart : List Char) : Rat :=
  (digitsToNat intPart : Rat) + (digitsToNat fracPart : Rat) / ((10 : Rat) ^ fracPart.length)

/-- Embedding of `DataProcessor.clean_price` (`data_processor.py` lines 86-108):
null input or the sentinel maps to null; otherwise the first
`\d+\.?\d*` match is parsed and scaled by the first applicable
magnitude marker (`lakh`, then `crore`, then `k`), each detected by a
case-insensitive substring test on the whole input. -/
def clean_price (price_text : Option String) : Option Rat :=
  match price_text with
  | none => none
  | some s =>
    if s = "Price not available" then none
    else
      match findFirstNumber s.data with
      | none => none
      | some (intPart, fracPart) =>
        let price := floatOfParts intPart fracPart
        if lowerContains "lakh" s then some (price * 100000)
        else if lowerContains "crore" s then some (price * 10000000)
        else if lowerContains "k" s then some (price * 1000)
        else some price

/-- Embedding of `DataProcessor.categorize_price` (`data_processor.py` lines 157-171). -/
def categorize_price (price : Option Rat) : String :=
  match price with
  | none => "Unknown"
  | some p =>
    if p < 1000 then "Budget (< ₹1K)"
    else if p < 10000 then "Low (₹1K-10K)"
    else if p < 50000 then "Medium (₹10K-50K)"
    else if p < 100000 then "High (₹50K-1L)"
    else "Premium (> ₹1L)"

/-- The state of a whitespace-collapsing scan: `prevWs` records whether
the previous character was whitespace. -/
def collapseWsGo : Bool → List Char → List Char
  | _, [] => []
  | prevWs, c :: cs =>
    if c.isWhitespace then
      if prevWs then collapseWsGo true cs else ' ' :: collapseWsGo true cs
    else c :: collapseWsGo false cs

/-- Python `re.sub` with the pattern \s+ and a single-space replacement:
each maximal whitespace run becomes a single space. -/
def collapseWs (cs : List Char) : List Char := collapseWsGo false cs

/-- Scanner for Python `str.title()`: a letter is uppercased when the
previous character is not a letter, lowercased otherwise. -/
def pyTitleGo : Bool → List Char → List Char
  | _, [] => []
  | prevAlpha, c :: cs =>
    (if c.isAlpha then (if prevAlpha then c.toLower else c.toUpper) else c) ::
      pyTitleGo c.isAlpha cs

/-- Python `str.title()`. -/
def pyTitle (cs : List Char) : String := ⟨pyTitleGo false cs⟩

/-- Embedding of `DataProcessor.clean_location` (`data_processor.py` lines 110-121). -/
def clean_location (location : Option String) : String :=
  match location with
  | none => "Unknown"
  | some l =>
    if l = "Location not available" then "Unknown"
    else pyTitle (pyStrip (collapseWs l.data))

/-- The fixed region list of `extract_state` (`data_processor.py`
lines 129-133), in source order. -/
def indian_states : List String :=
  ["Maharashtra", "Gujarat", "Delhi", "Tamil Nadu", "Karnataka",
   "Uttar Pradesh", "West Bengal", "Rajasthan", "Haryana",
   "Telangana", "Andhra Pradesh", "Punjab", "Madhya Pradesh"]

/-- The `for state in states` loop of `extract_state`: first state whose
lowercased name occurs in the lowercased location. -/
def stateScan : List String → String → Option String
  | [], _ => none
  | s :: rest, loc => if lowerContains s loc then some s else stateScan rest loc

/-- Python split on the comma character, on character lists (the result
is always non-empty: a separator-free string yields the one-element
list of itself). -/
def pySplitComma : List Char → List (List Char)
  | [] => [[]]
  | c :: cs =>
    match pySplitComma cs with
    | [] => [[]]
    | g :: gs => if c = ',' then [] :: g :: gs else (c :: g) :: gs

/-- Embedding of `DataProcessor.extract_state` (`data_processor.py` lines 123-141). -/
def extract_state (location : String) : String :=
  if location = "Unknown" then "Unknown"
  else
    match stateScan indian_states location with
    | some s => s
    | none =>
      match pySplitComma location.data with
      | [] => "Unknown"
      | p :: ps => ⟨pyStrip ((p :: ps).getLast (List.cons_ne_nil p ps))⟩

/-- Modelled from the spec: the state-extraction rule as the
specification words it — return the first region of the fixed list that
is a case-insensitive substring of the input; if none matches, split on
commas and return the trimmed last segment, or `"Unknown"` if the
string has no comma segments; `"Unknown"` maps to itself. -/
def extract_state_spec (location : String) : String :=
  if location = "Unknown" then "Unknown"
  else
    match indian_states.find? (fun s => lowerContains s location) with
    | some s => s
    | none =>
      match pySplitComma location.data with
      | [] => "Unknown"
      | p :: ps => ⟨pyStrip ((p :: ps).getLast (List.cons_ne_nil p ps))⟩

/-- Characters of the regex class `\w`, for word-boundary tests. -/
def isWordChar (c : Char) : Bool := c.isAlphanum || c = '_'

/-- Case-insensitive literal match of `pat` at the head of the input;
returns the remainder on success. -/
def matchCI : List Char → List Char → Option (List Char)
  | [], rest => some rest
  | _ :: _, [] => none
  | p :: ps, c :: cs => if p.toLower = c.toLower then matchCI ps cs else none

/-- One pass of the case-insensitive `re.sub` deletion the suffix loop
performs, whose pattern is the suffix wrapped in word boundaries (\b)
followed by an optional dot: a left-to-right scan deleting every
non-overlapping occurrence of `pat` that sits at word boundaries,
together with at most one trailing dot.
`prevWord` records whether the previous character is a word character
(false at the start of the string).  `fuel` only bounds the recursion;
it is kept at least the remaining length, so the zero case is never
reached on real inputs. -/
def subWordCIGo (pat : List Char) : Nat → Bool → List Char → List Char
  | 0, _, rest => rest
  | _ + 1, _, [] => []
  | fuel + 1, prevWord, c :: cs =>
    if prevWord = false ∧ pat ≠ [] then
      match matchCI pat (c :: cs) with
      | some [] => []
      | some ('.' :: rest2) => subWordCIGo pat fuel false rest2
      | some (r :: rest2) =>
        if isWordChar r then c :: subWordCIGo pat fuel (isWordChar c) cs
        else subWordCIGo pat fuel true (r :: rest2)
      | none => c :: subWordCIGo pat fuel (isWordChar c) cs
    else c :: subWordCIGo pat fuel (isWordChar c) cs

/-- Word-boundary, case-insensitive deletion of a literal suffix with an
optional trailing dot, as one iteration of the `clean_company_name`
suffix loop performs it. -/
def subWordCI (pat text : List Char) : List Char :=
  subWordCIGo pat text.length false text

/-- The legal-suffix vocabulary of `clean_company_name`
(`data_processor.py` line 151), in source order. -/
def company_suffixes : List String :=
  ["Pvt Ltd", "Private Limited", "Ltd", "Inc", "Corporation", "Corp"]

/-- Embedding of `DataProcessor.clean_company_name` (`data_processor.py`
lines 143-155). -/
def clean_company_name (company : Option String) : String :=
  match company with
  | none => "Unknown"
  | some c =>
    if c = "Unknown" then "Unknown"
    else
      let stripped := pyStrip c.data
      let removed := company_suffixes.foldl (fun acc suf => subWordCI suf.data acc) stripped
      pyTitle (pyStrip removed)

/-- Scanner for Python `str.split()` with no arguments: accumulate the
current word (reversed) and cut at whitespace, emitting no empties. -/
def pyWordsGo (cur : List Char) : List Char → List (List Char)
  | [] => if cur.isEmpty then [] else [cur.reverse]
  | c :: cs =>
    if c.isWhitespace then
      if cur.isEmpty then pyWordsGo [] cs else cur.reverse :: pyWordsGo [] cs
    else pyWordsGo (c :: cur) cs

/-- Python `str.split()` with no arguments. -/
def pyWords (cs : List Char) : List (List Char) := pyWordsGo [] cs

/-- The stop-word set of `extract_keywords` (`data_processor.py`
line 182). -/
def stop_words : List String :=
  ["and", "or", "the", "a", "an", "in", "on", "at", "for", "with", "from", "to"]

/-- Embedding of `DataProcessor.extract_keywords` (`data_processor.py`
lines 173-185). -/
def extract_keywords (product_name : Option String) : List String :=
  match product_name with
  | none => []
  | some n =>
    let words := (pyWords (pyLower n.data)).map (fun w => (⟨w⟩ : String))
    let keywords := words.filter (fun w => !(stop_words.contains w) && decide (2 < w.length))
    keywords.take 5

/-- One row of the scraped table, restricted to the columns the cleaning
stage reads.  `none` models a pandas `NaN` cell. -/
structure Row where
  name : Option String
  price : Option String
  company : Option String
  location : Option String
  url : Option String
  source : Option String
  category : Option String
deriving DecidableEq

/-- A row after `clean_data` has appended the derived columns.  The raw
columns are carried through unchanged: the pandas column assignments of
`clean_data` only add columns. -/
structure NormRow where
  raw : Row
  price_cleaned : Option Rat
  location_cleaned : String
  state : String
  company_cleaned : String
  price_category : String
  product_keywords : List String
deriving DecidableEq

/-- Steps 3-7 of `DataProcessor.clean_data` (`data_processor.py`
lines 60-79) on one row: apply each per-field normalizer and append the
derived columns. -/
def normalizeRow (r : Row) : NormRow :=
  let pc := clean_price r.price
  let lc := clean_location r.location
  { raw := r
    price_cleaned := pc
    location_cleaned := lc
    state := extract_state lc
    company_cleaned := clean_company_name r.company
    price_category := categorize_price pc
    product_keywords := extract_keywords r.name }

/-- The key of the drop-duplicates call, namely the raw `name` and
`company` columns. -/
def dedupKey (r : Row) : Option String × Option String := (r.name, r.company)

/-- Scan implementing the pandas drop-duplicates pass with keep=first: a
row survives iff its key was not seen earlier. -/
def dropDuplicatesGo : List Row → List (Option String × Option String) → List Row
  | [], _ => []
  | r :: rs, seen =>
    if dedupKey r ∈ seen then dropDuplicatesGo rs seen
    else r :: dropDuplicatesGo rs (dedupKey r :: seen)

/-- Embedding of the deduplication step of `clean_data`
(`data_processor.py` line 52): drop duplicates over the subset of the
`name` and `company` columns, keeping the first occurrence. -/
def drop_duplicates (rows : List Row) : List Row := dropDuplicatesGo rows []

/-- Dedup key read off a normalized row: the `name` and `company`
columns of the table are still the raw ones. -/
def dedupKeyN (r : NormRow) : Option String × Option String := (r.raw.name, r.raw.company)

/-- The deduplication scan on the normalized table. -/
def dropDuplicatesNGo : List NormRow → List (Option String × Option String) → List NormRow
  | [], _ => []
  | r :: rs, seen =>
    if dedupKeyN r ∈ seen then dropDuplicatesNGo rs seen
    else r :: dropDuplicatesNGo rs (dedupKeyN r :: seen)

/-- The same deduplication pass run after normalization instead of
before it. -/
def drop_duplicatesN (rows : List NormRow) : List NormRow := dropDuplicatesNGo rows []

/-- Embedding of `DataProcessor.calculate_quality_score`
(`data_processor.py` lines 211-222) on one row: the pandas expression starts from 0 and adds
`(check).astype(int) * weight` for each of the five checks.  The name
and url checks are null checks only; the company check compares the raw
`company` column with the literal `"Unknown"` (a null cell also differs
from it); the location check reads the derived `location_cleaned`
column. -/
def calculate_quality_score (r : NormRow) : Nat :=
  0 + (if r.raw.name.isSome then 1 else 0) * 30
    + (if r.price_cleaned.isSome then 1 else 0) * 25
    + (if r.raw.company ≠ some "Unknown" then 1 else 0) * 20
    + (if r.location_cleaned ≠ "Unknown" then 1 else 0) * 15
    + (if r.raw.url.isSome then 1 else 0) * 10

/-- An anchor-like element of the parsed document, as the find-all call
over anchor tags with an href attribute yields it: its title attribute, its
stripped text, its href value, and the strings of its parent subtree in
document order (searched for a price fragment). -/
structure Elem where
  title : Option String
  text : String
  href : String
  parentStrings : List String
deriving DecidableEq

/-- Derivation of the candidate name from the title attribute, falling
back to the stripped element text: Python `or` falls through on a
missing or empty title attribute. -/
def deriveName (e : Elem) : String :=
  match e.title with
  | some t => if t = "" then e.text else t
  | none => e.text

/-- Alternatives of the case-insensitive price regex: ₹, Rs, INR,
Price. -/
def price_markers : List String := ["₹", "rs", "inr", "price"]

/-- Embedding of the parent-subtree search for a price fragment: the
first parent string containing one of the markers case-insensitively. -/
def findPriceString (strs : List String) : Option String :=
  strs.find? (fun t => price_markers.any (fun m => lowerContains m t))

/-- First match of re.findall with the character class of digits and
commas: the first maximal run of digits and commas. -/
def findFirstCommaRun : List Char → Option (List Char)
  | [] => none
  | c :: cs =>
    if c.isDigit || c = ',' then
      some ((c :: cs).takeWhile (fun d => d.isDigit || d = ','))
    else findFirstCommaRun cs

/-- Parse of the first comma-grouped run under the inner try block: drop
the commas and parse; an all-comma run raises and leaves the field
null. -/
def parsePriceNumeric (priceText : String) : Option Rat :=
  match findFirstCommaRun priceText.data with
  | none => none
  | some run =>
    let digits := run.filter Char.isDigit
    if digits.isEmpty then none else some ((digitsToNat digits : Nat) : Rat)

/-- The price fields of one extracted product (scraper lines 112-126):
defaults `"Price on Request"` and null, overridden when a parent string
matches the price regex. -/
def elemPrice (e : Elem) : String × Option Rat :=
  match findPriceString e.parentStrings with
  | none => ("Price on Request", none)
  | some t => (pyStripS t, parsePriceNumeric (pyStripS t))

/-- One record as `extract_products` builds it (scraper lines 128-139),
with `scraped_at` supplied by the caller in place of `datetime.now()`. -/
structure Product where
  name : String
  price : String
  price_numeric : Option Rat
  company : String
  location : String
  category : String
  rating : Option String
  url : String
  scraped_at : String
  source : String
deriving DecidableEq

/-- The product dictionary literal of scraper lines 128-139. -/
def mkProduct (e : Elem) (name category sourceName now : String) : Product :=
  { name := name
    price := (elemPrice e).1
    price_numeric := (elemPrice e).2
    company := "To be updated"
    location := "India"
    category := category
    rating := none
    url := e.href
    scraped_at := now
    source := sourceName }

/-- The navigation-noise vocabulary of the extractor (scraper
line 107), in source order. -/
def noise_words : List String :=
  ["home", "about", "contact", "login", "category", "more"]

/-- Noise test of the extractor: any noise word occurring in the
lowercased name. -/
def isNoiseName (name : String) : Bool :=
  noise_words.any (fun w => lowerContains w name)

/-- The scan loop of `extract_products` (scraper lines 97-145): `fuel`
is `max_results - count`, `seen` the set of already-emitted names. -/
def extractGo (category sourceName now : String) :
    List Elem → Nat → List String → List Product
  | _, 0, _ => []
  | [], _ + 1, _ => []
  | e :: rest, fuel + 1, seen =>
    let name := deriveName e
    if name ≠ "" ∧ 10 < name.length ∧ name.length < 200 ∧ name ∉ seen then
      if isNoiseName name then extractGo category sourceName now rest (fuel + 1) seen
      else mkProduct e name category sourceName now ::
        extractGo category sourceName now rest fuel (name :: seen)
    else extractGo category sourceName now rest (fuel + 1) seen

/-- Embedding of `MultiSourceScraper.extract_products` (scraper lines 89-147),
returning the emitted records (the source appends them to
`self.products` and returns their count). -/
def extract_products (doc : List Elem) (category sourceName now : String)
    (max_results : Nat) : List Product :=
  extractGo category sourceName now doc max_results []

/-- Outcome of one `session.get` for a source: an exception during
fetch/parse, or a response carrying a status code and parsed document. -/
inductive FetchOutcome where
  | failure : FetchOutcome
  | response : Nat → List Elem → FetchOutcome

/-- Embedding of the source registry (scraper lines 24-49): key to
display name. -/
def sources_registry : List (String × String) :=
  [("tradeindia", "TradeIndia"), ("alibaba", "Alibaba"),
   ("dhgate", "DHgate"), ("exportersindia", "ExportersIndia")]

/-- Embedding of `MultiSourceScraper.scrape_source` (scraper lines 60-87): an unknown
key, an exception, or a non-200 status contribute zero records; a 200
response is fed to `extract_products`, whose record count is returned.
The network is abstracted as `env`, mapping a source key and category to
the fetch outcome. -/
def scrape_source (env : String → String → FetchOutcome) (source_key category : String)
    (max_results : Nat) (now : String) : Nat × List Product :=
  match sources_registry.lookup source_key with
  | none => (0, [])
  | some sourceName =>
    match env source_key category with
    | FetchOutcome.failure => (0, [])
    | FetchOutcome.response status doc =>
      if status = 200 then
        let ps := extract_products doc category sourceName now max_results
        (ps.length, ps)
      else (0, [])

/-- Embedding of `MultiSourceScraper.scrape_category` (scraper lines 149-161): fold
over the source list, accumulating the per-source counts. -/
def scrape_category (env : String → String → FetchOutcome) (category : String)
    (sources : List String) (max_per_source : Nat) (now : String) : Nat :=
  sources.foldl (fun total s => total + (scrape_source env s category max_per_source now).1) 0

/-- A network environment in which every fetch raises an exception. -/
def envAllFail : String → String → FetchOutcome := fun _ _ => FetchOutcome.failure

/-- A concrete extraction candidate: a navigation link whose 4-character
name fails the length filter. -/
def elemHome : Elem := ⟨some "Home", "Home", "/", []⟩

/-- A concrete extraction candidate: long enough, but containing the
noise word `contact`. -/
def elemContact : Elem :=
  ⟨some "Contact Us Page Link", "Contact Us Page Link", "/contact", []⟩

/-- A concrete extraction candidate: a descriptive product name
containing no noise word. -/
def elemGood : Elem :=
  ⟨some "Industrial Grade Hydraulic Press Machine 50 Ton Cap", "", "/p/1", []⟩

/-- A concrete scraped row used to exercise the deduplication pass. -/
def rowA : Row :=
  { name := some "Heavy Duty CNC Milling Machine"
    price := some "₹ 5,000"
    company := some "Prime Industries"
    location := some "Mumbai, Maharashtra"
    url := some "https://www.tradeindia.com/x"
    source := some "TradeIndia"
    category := some "industrial machinery" }

/-- The same listing found on a second source: identical name and
company, different source. -/
def rowB : Row := { rowA with source := some "Alibaba" }

/-- Evaluation rule for `clean_price` once the first number match is
known. -/
theorem clean_price_of_number (s : String) (ip fp : List Char)
    (h1 : s ≠ "Price not available")
    (h2 : findFirstNumber s.data = some (ip, fp)) :
    clean_price (some s) =
      some (if lowerContains "lakh" s then floatOfParts ip fp * 100000
        else if lowerContains "crore" s then floatOfParts ip fp * 10000000
        else if lowerContains "k" s then floatOfParts ip fp * 1000
        else floatOfParts ip fp) := by
  simp [clean_price, h1, h2, apply_ite some]

/-- A character list without digits has no `\d+\.?\d*` match. -/
theorem findFirstNumber_eq_none (cs : List Char) (h : ∀ c ∈ cs, c.isDigit = false) :
    findFirstNumber cs = none := by
  induction cs with
  | nil => rfl
  | cons c cs ih =>
    have hc := h c (List.mem_cons_self c cs)
    simp [findFirstNumber, hc]
    exact ih (fun d hd => h d (List.mem_cons_of_mem c hd))

/-- C1 counterexample: the claimed normalization of the comma-grouped
example is false on the code — the digit-run pattern `\d+\.?\d*` stops
at the comma, so `clean_price("₹ 5,000")` is 5.0, not 5000.0. -/
theorem clean_price_comma_example_refuted :
    clean_price (some "₹ 5,000") ≠ some 5000 := by
  rw [clean_price_of_number _ ['5'] [] (by decide) (by decide)]
  norm_num [show lowerContains "lakh" "₹ 5,000" = false from by decide,
    show lowerContains "crore" "₹ 5,000" = false from by decide,
    show lowerContains "k" "₹ 5,000" = false from by decide,
    floatOfParts, show digitsToNat ['5'] = 5 from by decide,
    show digitsToNat [] = 0 from by decide]

/-- C1 (amended): a null input or the sentinel `"Price not available"`
yields null; an input with no digit yields null;
`clean_price("₹ 2.50 Lakh") = 250000.0`; and
`clean_price("₹ 5,000") = 5.0` (the first digit run stops at the
comma). -/
theorem clean_price_normalizer_values (s : String) :
    clean_price none = none
    ∧ clean_price (some "Price not available") = none
    ∧ ((∀ c ∈ s.data, c.isDigit = false) → clean_price (some s) = none)
    ∧ clean_price (some "₹ 2.50 Lakh") = some 250000
    ∧ clean_price (some "₹ 5,000") = some 5 := by
  refine ⟨rfl, by decide, fun h => ?_, ?_, ?_⟩
  · have hn := findFirstNumber_eq_none s.data h
    by_cases hs : s = "Price not available" <;> simp [clean_price, hs, hn]
  · rw [clean_price_of_number _ ['2'] ['5', '0'] (by decide) (by decide)]
    norm_num [show lowerContains "lakh" "₹ 2.50 Lakh" = true from by decide,
      floatOfParts, show digitsToNat ['2'] = 2 from by decide,
      show digitsToNat ['5', '0'] = 50 from by decide]
  · rw [clean_price_of_number _ ['5'] [] (by decide) (by decide)]
    norm_num [show lowerContains "lakh" "₹ 5,000" = false from by decide,
      show lowerContains "crore" "₹ 5,000" = false from by decide,
      show lowerContains "k" "₹ 5,000" = false from by decide,
      floatOfParts, show digitsToNat ['5'] = 5 from by decide,
      show digitsToNat [] = 0 from by decide]

/-- Witness for C1: a digit-free price text (the other sentinel, which
the extractor emits) normalizes to null. -/
theorem clean_price_normalizer_values_witness :
    clean_price (some "Price on Request") = none :=
  (clean_price_normalizer_values "Price on Request").2.2.1 (by decide)

/-- C7: exactly one multiplier is applied to the first extracted digit
run, chosen by the fixed priority order lakh (x100000), then crore
(x10000000), then the character k (x1000), each tested by plain
substring presence with no mutual-exclusion guard. -/
theorem clean_price_multiplier_priority (s : String) (ip fp : List Char)
    (hs : s ≠ "Price not available")
    (hn : findFirstNumber s.data = some (ip, fp)) :
    (lowerContains "lakh" s = true →
      clean_price (some s) = some (floatOfParts ip fp * 100000))
    ∧ (lowerContains "lakh" s = false → lowerContains "crore" s = true →
      clean_price (some s) = some (floatOfParts ip fp * 10000000))
    ∧ (lowerContains "lakh" s = false → lowerContains "crore" s = false →
      lowerContains "k" s = true →
      clean_price (some s) = some (floatOfParts ip fp * 1000)) := by
  refine ⟨fun h1 => ?_, fun h1 h2 => ?_, fun h1 h2 h3 => ?_⟩
  · simp [clean_price, hs, hn, h1]
  · simp [clean_price, hs, hn, h1, h2]
  · simp [clean_price, hs, hn, h1, h2, h3]

/-- Witness for C7: a pathological text containing both `lakh` and
`crore` (and hence also `k`) takes only the lakh multiplier. -/
theorem clean_price_multiplier_priority_witness :
    clean_price (some "5 lakh crore") = some 500000 := by
  have h := (clean_price_multiplier_priority "5 lakh crore" ['5'] []
    (by decide) (by decide)).1 (by decide)
  rw [h]
  norm_num [floatOfParts, show digitsToNat ['5'] = 5 from by decide,
    show digitsToNat [] = 0 from by decide]

/-- C4: `categorize_price` maps null to Unknown and every numeric price
to exactly one of the five enumerated bins; the bins are half-open on
the low end, so each boundary value 1000, 10000, 50000, 100000 falls
into the higher bin. -/
theorem categorize_price_bins (p : Rat) :
    categorize_price none = "Unknown"
    ∧ categorize_price (some p) ∈
        ["Budget (< ₹1K)", "Low (₹1K-10K)", "Medium (₹10K-50K)",
         "High (₹50K-1L)", "Premium (> ₹1L)"]
    ∧ (p < 1000 → categorize_price (some p) = "Budget (< ₹1K)")
    ∧ (1000 ≤ p → p < 10000 → categorize_price (some p) = "Low (₹1K-10K)")
    ∧ (10000 ≤ p → p < 50000 → categorize_price (some p) = "Medium (₹10K-50K)")
    ∧ (50000 ≤ p → p < 100000 → categorize_price (some p) = "High (₹50K-1L)")
    ∧ (100000 ≤ p → categorize_price (some p) = "Premium (> ₹1L)")
    ∧ categorize_price (some 1000) = "Low (₹1K-10K)"
    ∧ categorize_price (some 10000) = "Medium (₹10K-50K)"
    ∧ categorize_price (some 50000) = "High (₹50K-1L)"
    ∧ categorize_price (some 100000) = "Premium (> ₹1L)" := by
  refine ⟨rfl, ?_, fun h1 => ?_, fun h1 h2 => ?_, fun h1 h2 => ?_,
    fun h1 h2 => ?_, fun h1 => ?_, ?_, ?_, ?_, ?_⟩
  · simp only [categorize_price]
    split_ifs <;> simp
  · simp [categorize_price, h1]
  · simp [categorize_price, h2, not_lt.mpr h1]
  · have : ¬(p < 1000) := by intro h; linarith
    simp [categorize_price, h2, this, not_lt.mpr h1]
  · have ha : ¬(p < 1000) := by intro h; linarith
    have hb : ¬(p < 10000) := by intro h; linarith
    simp [categorize_price, h2, ha, hb, not_lt.mpr h1]
  · have ha : ¬(p < 1000) := by intro h; linarith
    have hb : ¬(p < 10000) := by intro h; linarith
    have hc : ¬(p < 50000) := by intro h; linarith
    simp [categorize_price, ha, hb, hc, not_lt.mpr h1]
  · norm_num [categorize_price]
  · norm_num [categorize_price]
  · norm_num [categorize_price]
  · norm_num [categorize_price]

/-- Witness for C4: the boundary value 10000 lands in the Medium bin,
not Low. -/
theorem categorize_price_bins_witness :
    categorize_price (some 10000) = "Medium (₹10K-50K)" :=
  (categorize_price_bins 10000).2.2.2.2.1 (by norm_num) (by norm_num)

/-- C2: the quality score is the sum of the five independent weighted
presence checks, always lies in [0, 100], and a record with a name, a
parsed price, the company fallback `"Unknown"`, an unresolved location
(`location_cleaned = "Unknown"`), and a url scores
30 + 25 + 0 + 0 + 10 = 65. -/
theorem quality_score_weighted_sum (r : NormRow)
    (nm pt u src cat st cc pcat : String) (p : Rat) (kws : List String) :
    calculate_quality_score r =
      (if r.raw.name.isSome then 30 else 0)
      + (if r.price_cleaned.isSome then 25 else 0)
      + (if r.raw.company ≠ some "Unknown" then 20 else 0)
      + (if r.location_cleaned ≠ "Unknown" then 15 else 0)
      + (if r.raw.url.isSome then 10 else 0)
    ∧ 0 ≤ calculate_quality_score r
    ∧ calculate_quality_score r ≤ 100
    ∧ calculate_quality_score
        ⟨⟨some nm, some pt, some "Unknown", some "Location not available",
          some u, some src, some cat⟩, some p, "Unknown", st, cc, pcat, kws⟩
        = 30 + 25 + 0 + 0 + 10 := by
  refine ⟨?_, Nat.zero_le _, ?_, ?_⟩
  · simp only [calculate_quality_score]
    split_ifs <;> norm_num
  · simp only [calculate_quality_score]
    split_ifs <;> norm_num
  · simp [calculate_quality_score]

/-- C10: the url check of the quality score is a null check, not an
emptiness check: any non-null url value — the empty string included,
which is what the extractor stores when the href value of an anchor is
empty — earns exactly the +10 url points over the same row with a null
url. -/
theorem quality_score_url_null_check
    (nm pt co lo src cat : Option String) (u : String)
    (pc : Option Rat) (lc st cc pcat : String) (kws : List String) :
    calculate_quality_score
        ⟨⟨nm, pt, co, lo, some u, src, cat⟩, pc, lc, st, cc, pcat, kws⟩
      = calculate_quality_score
        ⟨⟨nm, pt, co, lo, none, src, cat⟩, pc, lc, st, cc, pcat, kws⟩
        + 10 := by
  simp [calculate_quality_score]

/-- Rows whose key is already recorded as seen never survive the
deduplication scan. -/
theorem dropDuplicatesGo_filter_of_mem (rows : List Row)
    (seen : List (Option String × Option String)) (k : Option String × Option String)
    (hk : k ∈ seen) :
    (dropDuplicatesGo rows seen).filter (fun r => decide (dedupKey r = k)) = [] := by
  induction rows generalizing seen with
  | nil => rfl
  | cons r rs ih =>
    simp only [dropDuplicatesGo]
    by_cases h : dedupKey r ∈ seen
    · rw [if_pos h]
      exact ih seen hk
    · rw [if_neg h]
      have hne : ¬(dedupKey r = k) := fun he => h (he ▸ hk)
      simp only [List.filter_cons, decide_eq_false hne, Bool.false_eq_true, if_false]
      exact ih (dedupKey r :: seen) (List.mem_cons_of_mem _ hk)

/-- The rows surviving deduplication with a given unseen key are exactly
the first occurrence of that key. -/
theorem dropDuplicatesGo_filter_eq_find (rows : List Row)
    (seen : List (Option String × Option String)) (k : Option String × Option String)
    (hk : k ∉ seen) :
    (dropDuplicatesGo rows seen).filter (fun r => decide (dedupKey r = k))
      = (rows.find? (fun r => decide (dedupKey r = k))).toList := by
  induction rows generalizing seen with
  | nil => rfl
  | cons r rs ih =>
    simp only [dropDuplicatesGo]
    by_cases h : dedupKey r ∈ seen
    · have hne : ¬(dedupKey r = k) := fun he => hk (he ▸ h)
      rw [if_pos h, ih seen hk]
      simp [List.find?_cons, decide_eq_false hne]
    · rw [if_neg h]
      by_cases he : dedupKey r = k
      · subst he
        have h1 : (dropDuplicatesGo rs (dedupKey r :: seen)).filter
            (fun x => decide (dedupKey x = dedupKey r)) = [] :=
          dropDuplicatesGo_filter_of_mem rs _ _ (List.mem_cons_self _ _)
        simp [List.filter_cons, List.find?_cons, h1]
      · have hnotin : k ∉ dedupKey r :: seen := by
          intro hx
          rcases List.mem_cons.mp hx with h1 | h2
          · exact he h1.symm
          · exact hk h2
        simp only [List.filter_cons, List.find?_cons, decide_eq_false he,
          Bool.false_eq_true, if_false]
        exact ih (dedupKey r :: seen) hnotin

/-- C3: deduplication keys on the raw (name, company) pair: for every
key, the surviving rows with that key are exactly the first-occurring
row with that key (so at most one row per distinct pair, in original
row order); in particular two rows with identical name and company but
different source leave exactly the first row. -/
theorem dedup_first_occurrence_wins (rows : List Row)
    (k : Option String × Option String) (r1 r2 : Row)
    (hk : dedupKey r1 = dedupKey r2) (_hsrc : r1.source ≠ r2.source) :
    (drop_duplicates rows).filter (fun r => decide (dedupKey r = k))
        = (rows.find? (fun r => decide (dedupKey r = k))).toList
    ∧ ((drop_duplicates rows).filter (fun r => decide (dedupKey r = k))).length ≤ 1
    ∧ drop_duplicates [r1, r2] = [r1] := by
  have hmain : (drop_duplicates rows).filter (fun r => decide (dedupKey r = k))
      = (rows.find? (fun r => decide (dedupKey r = k))).toList :=
    dropDuplicatesGo_filter_eq_find rows [] k (List.not_mem_nil k)
  refine ⟨hmain, ?_, ?_⟩
  · rw [hmain]
    cases rows.find? (fun r => decide (dedupKey r = k)) <;> simp
  · simp [drop_duplicates, dropDuplicatesGo, hk]

/-- Witness for C3: the two concrete sample rows share name and company
but not source; deduplication keeps only the first. -/
theorem dedup_first_occurrence_wins_witness :
    drop_duplicates [rowA, rowB] = [rowA] :=
  (dedup_first_occurrence_wins [rowA, rowB] (dedupKey rowA) rowA rowB
    (by decide) (by decide)).2.2

/-- Normalization commutes with the deduplication scan for any starting
seen-set, because a normalized row carries the raw key columns
unchanged. -/
theorem dedupGo_map_normalize (rows : List Row)
    (seen : List (Option String × Option String)) :
    (dropDuplicatesGo rows seen).map normalizeRow
      = dropDuplicatesNGo (rows.map normalizeRow) seen := by
  induction rows generalizing seen with
  | nil => rfl
  | cons r rs ih =>
    simp only [List.map, dropDuplicatesGo, dropDuplicatesNGo]
    have hkey : dedupKeyN (normalizeRow r) = dedupKey r := rfl
    rw [hkey]
    by_cases h : dedupKey r ∈ seen
    · rw [if_pos h, if_pos h]
      exact ih seen
    · rw [if_neg h, if_neg h]
      simp only [List.map]
      rw [ih (dedupKey r :: seen)]

/-- C6: running deduplication before the per-field normalizations (as
`clean_data` does) yields the same final table as normalizing first and
deduplicating afterwards: the normalizers only append derived columns,
carrying the raw row — in particular the name and company key columns —
through unchanged. -/
theorem dedup_normalize_commute (rows : List Row) (r : Row) :
    (drop_duplicates rows).map normalizeRow = drop_duplicatesN (rows.map normalizeRow)
    ∧ (normalizeRow r).raw = r
    ∧ dedupKeyN (normalizeRow r) = dedupKey r :=
  ⟨dedupGo_map_normalize rows [], rfl, rfl⟩

/-- The state-list scan is the first-match search over the list. -/
theorem stateScan_eq_find (states : List String) (loc : String) :
    stateScan states loc = states.find? (fun s => lowerContains s loc) := by
  induction states with
  | nil => rfl
  | cons s rest ih =>
    cases h : lowerContains s loc <;> simp [stateScan, List.find?_cons, h, ih]

/-- C8: `extract_state` computes exactly the rule of the specification — the
first region of the fixed list (in list order) that is a
case-insensitive substring of the input; failing that, the trimmed last
comma segment, with `"Unknown"` reserved for the (unreachable) case of
no comma segments; and the input `"Unknown"` maps to itself. -/
theorem extract_state_matches_spec (loc : String) :
    extract_state loc = extract_state_spec loc
    ∧ extract_state "Unknown" = "Unknown" := by
  refine ⟨?_, rfl⟩
  unfold extract_state extract_state_spec
  rw [stateScan_eq_find]

/-- Folding an accumulating sum equals the sum of the mapped list. -/
theorem foldl_add_counts (f : String → Nat) (sources : List String) (a : Nat) :
    sources.foldl (fun total s => total + f s) a = a + (sources.map f).sum := by
  induction sources generalizing a with
  | nil => simp
  | cons s rest ih => simp [List.foldl, ih, Nat.add_assoc]

/-- C9: the aggregator total is the sum of the per-source counts, each
computed by one extraction pass independent of the other sources; a
fetch failure contributes zero records; and a zero-contribution source
at the head of the list leaves the result of the remaining sources unchanged
(failure isolation, not propagation). -/
theorem scrape_category_failure_isolation (env : String → String → FetchOutcome)
    (category : String) (sources : List String) (max_per_source : Nat) (now : String) :
    scrape_category env category sources max_per_source now
      = (sources.map (fun s => (scrape_source env s category max_per_source now).1)).sum
    ∧ (∀ s, env s category = FetchOutcome.failure →
        (scrape_source env s category max_per_source now).1 = 0)
    ∧ (∀ s rest, (scrape_source env s category max_per_source now).1 = 0 →
        scrape_category env category (s :: rest) max_per_source now
          = scrape_category env category rest max_per_source now) := by
  refine ⟨?_, ?_, ?_⟩
  · simpa using
      foldl_add_counts (fun s => (scrape_source env s category max_per_source now).1) sources 0
  · intro s hfail
    cases hl : sources_registry.lookup s with
    | none => simp [scrape_source, hl]
    | some nm => simp [scrape_source, hl, hfail]
  · intro s rest h0
    simp [scrape_category, List.foldl, h0]

/-- Witness for C9: in an environment in which every fetch raises, a
source contributes zero records. -/
theorem scrape_category_failure_isolation_witness :
    (scrape_source envAllFail "tradeindia" "industrial machinery" 15 "t").1 = 0 :=
  (scrape_category_failure_isolation envAllFail "industrial machinery"
    ["tradeindia", "alibaba", "dhgate"] 15 "t").2.1 "tradeindia" rfl

/-- The extraction scan never emits more records than its fuel. -/
theorem extractGo_length_le (category sourceName now : String) (doc : List Elem)
    (fuel : Nat) (seen : List String) :
    (extractGo category sourceName now doc fuel seen).length ≤ fuel := by
  induction doc generalizing fuel seen with
  | nil => cases fuel <;> simp [extractGo]
  | cons e rest ih =>
    cases fuel with
    | zero => simp [extractGo]
    | succ n =>
      simp only [extractGo]
      split_ifs with h1 h2
      · exact ih (n + 1) seen
      · exact Nat.succ_le_succ (ih n _)
      · exact ih (n + 1) seen

/-- The extraction scan emits a sublist of the per-element records, in
document order. -/
theorem extractGo_sublist (category sourceName now : String) (doc : List Elem)
    (fuel : Nat) (seen : List String) :
    List.Sublist (extractGo category sourceName now doc fuel seen)
      (doc.map (fun e => mkProduct e (deriveName e) category sourceName now)) := by
  induction doc generalizing fuel seen with
  | nil => cases fuel <;> simp [extractGo]
  | cons e rest ih =>
    cases fuel with
    | zero => simp [extractGo]
    | succ n =>
      simp only [extractGo, List.map]
      split_ifs with h1 h2
      · exact List.Sublist.cons _ (ih (n + 1) seen)
      · exact List.Sublist.cons₂ _ (ih n _)
      · exact List.Sublist.cons _ (ih (n + 1) seen)

/-- Every record the scan emits passed the name filters, its name is
outside the seen set, and the emitted names are pairwise distinct. -/
theorem extractGo_names (category sourceName now : String) (doc : List Elem)
    (fuel : Nat) (seen : List String) :
    (∀ p ∈ extractGo category sourceName now doc fuel seen,
      10 < p.name.length ∧ p.name.length < 200
        ∧ isNoiseName p.name = false ∧ p.name ∉ seen)
    ∧ ((extractGo category sourceName now doc fuel seen).map Product.name).Nodup := by
  induction doc generalizing fuel seen with
  | nil => cases fuel <;> simp [extractGo]
  | cons e rest ih =>
    cases fuel with
    | zero => simp [extractGo]
    | succ n =>
      simp only [extractGo]
      split_ifs with h1 h2
      · exact ih (n + 1) seen
      · obtain ⟨hne, hlen1, hlen2, hseen⟩ := h1
        have hnoise : isNoiseName (deriveName e) = false := Bool.eq_false_iff.mpr h2
        obtain ⟨ihmem, ihnodup⟩ := ih n (deriveName e :: seen)
        constructor
        · intro p hp
          rcases List.mem_cons.mp hp with rfl | hp2
          · exact ⟨hlen1, hlen2, hnoise, hseen⟩
          · obtain ⟨g1, g2, g3, g4⟩ := ihmem p hp2
            exact ⟨g1, g2, g3, fun hx => g4 (List.mem_cons_of_mem _ hx)⟩
        · rw [List.map_cons]
          refine List.nodup_cons.mpr ⟨?_, ihnodup⟩
          intro hx
          rcases List.mem_map.mp hx with ⟨q, hq, hqname⟩
          have := (ihmem q hq).2.2.2
          rw [hqname] at this
          exact this (List.mem_cons_self _ _)
      · exact ih (n + 1) seen

/-- C5: the extractor emits at most `max_results` records, in document
order (its output is a sublist of the per-element records); every
emitted name has length between 11 and 199 inclusive, contains no noise
word case-insensitively, and differs from every other name emitted in
the same call. -/
theorem extract_products_filters (doc : List Elem) (category sourceName now : String)
    (max_results : Nat) :
    (extract_products doc category sourceName now max_results).length ≤ max_results
    ∧ List.Sublist (extract_products doc category sourceName now max_results)
        (doc.map (fun e => mkProduct e (deriveName e) category sourceName now))
    ∧ (∀ p ∈ extract_products doc category sourceName now max_results,
        11 ≤ p.name.length ∧ p.name.length ≤ 199
          ∧ ∀ w ∈ noise_words, lowerContains w p.name = false)
    ∧ ((extract_products doc category sourceName now max_results).map Product.name).Nodup := by
  refine ⟨extractGo_length_le category sourceName now doc max_results [],
    extractGo_sublist category sourceName now doc max_results [],
    ?_, (extractGo_names category sourceName now doc max_results []).2⟩
  intro p hp
  obtain ⟨h1, h2, h3, _⟩ := (extractGo_names category sourceName now doc max_results []).1 p hp
  refine ⟨h1, by omega, ?_⟩
  intro w hw
  by_contra hcon
  have hwtrue : lowerContains w p.name = true := by
    cases hb : lowerContains w p.name
    · exact absurd hb hcon
    · rfl
  have : isNoiseName p.name = true := by
    simp only [isNoiseName, List.any_eq_true]
    exact ⟨w, hw, hwtrue⟩
  rw [h3] at this
  exact Bool.false_ne_true this

/-- Witness for C5: on the three concrete candidates, the navigation
and noise links are dropped and the name of the good candidate respects the
length window. -/
theorem extract_products_filters_witness :
    11 ≤ (mkProduct elemGood (deriveName elemGood)
        "industrial machinery" "TradeIndia" "t").name.length :=
  ((extract_products_filters [elemHome, elemContact, elemGood]
    "industrial machinery" "TradeIndia" "t" 15).2.2.1 _ (by decide)).1

end B2B
